import Mathlib

/-!
Verification development for the waste-land knowledge-graph core.

Shallow embedding of the Python sources:

* `src/memory_toolbox.py` — `GraphDB` (SQLite-backed node/edge store),
  `LearningTracker` (append-only JSONL journal);
* `src/tarot_deck.py` — the fixed 78-card deck;
* `src/seed_tarot_spread.py` — `TarotSpreadSeeder` (SHA-256 path hash →
  CPython Mersenne-Twister seed → `random.sample(deck, 10)`).

Modelling conventions:

* SQLite tables become Lean lists of row structures kept in insertion
  (rowid) order; the `UNIQUE(source, relationship, target)` constraint is
  the branch condition that the code reaches through `sqlite3.IntegrityError`.
* `datetime.now()` is nondeterministic input, so every operation that reads
  the clock takes the current timestamp as an explicit `now : Nat` argument.
* Python `float` confidences are modelled as `ℚ`.
* A metadata dict is modelled as an association list `Meta`; `json.dumps` /
  `json.loads` of such a dict is modelled as the identity on it, and Python
  truthiness (`if metadata:`) as non-emptiness of the list / presence of the
  option.
* The journal file is modelled as the list of its JSON-line records
  (`json.dumps` escapes newlines, so one appended record is one line).
-/

namespace WasteLand

/-- A JSON-serializable metadata mapping (`Dict` in the Python source),
with string keys; values are abstracted to strings. -/
abbrev Meta := List (String × String)

/-- `json.dumps(metadata) if metadata else None` — an absent or empty
(falsy) dict is stored as SQL NULL, anything else is stored as its dump. -/
def metaEncode : Option Meta → Option Meta
  | none => none
  | some m => if m.isEmpty then none else some m

/-- `json.loads(stored) if stored else {}` — decoding a stored metadata
column, NULL becoming the empty dict. -/
def metaDecode : Option Meta → Meta
  | none => []
  | some m => m

/-- A row of the `nodes` table: `id TEXT PRIMARY KEY, ts TEXT NOT NULL,
created_by TEXT, metadata TEXT`. -/
structure NodeRow where
  id : String
  ts : Nat
  created_by : String
  metadata : Option Meta
deriving DecidableEq, Repr

/-- A row of the `edges` table: `id INTEGER PRIMARY KEY AUTOINCREMENT,
source, relationship, target, confidence REAL, ts TEXT, metadata TEXT`. -/
structure EdgeRow where
  id : Nat
  source : String
  relationship : String
  target : String
  confidence : ℚ
  ts : Nat
  metadata : Option Meta
deriving DecidableEq, Repr

/-- The persistent state of a `GraphDB`: both tables in rowid (insertion)
order, plus the next value of the edges AUTOINCREMENT counter. -/
structure GraphDB where
  nodes : List NodeRow
  edges : List EdgeRow
  nextEdgeId : Nat
deriving DecidableEq, Repr

/-- A freshly created database: both tables empty (`_init_schema`),
AUTOINCREMENT starting at 1. -/
def GraphDB.empty : GraphDB := ⟨[], [], 1⟩

/-- `node_exists`: `SELECT 1 FROM nodes WHERE id = ?` has a row. -/
def GraphDB.node_exists (db : GraphDB) (node_id : String) : Bool :=
  db.nodes.any (fun r => r.id == node_id)

/-- `create_node`: insert the row only when no node with this id exists;
always return the id. -/
def GraphDB.create_node (db : GraphDB) (node_id : String)
    (metadata : Option Meta) (now : Nat) : String × GraphDB :=
  if db.node_exists node_id then
    (node_id, db)
  else
    (node_id,
      { db with nodes := db.nodes ++ [⟨node_id, now, "system", metaEncode metadata⟩] })

/-- Does this edge row carry the given `(source, relationship, target)`
identity triple? -/
def EdgeRow.hasTriple (e : EdgeRow) (source relationship target : String) : Bool :=
  e.source == source && e.relationship == relationship && e.target == target

/-- The row transformation of the `UPDATE edges SET confidence = ?, ts = ?,
metadata = ? WHERE source = ? AND relationship = ? AND target = ?` statement. -/
def updateMatching (source relationship target : String) (confidence : ℚ)
    (metadata : Option Meta) (now : Nat) (e : EdgeRow) : EdgeRow :=
  if e.hasTriple source relationship target then
    { e with confidence := confidence, ts := now, metadata := metaEncode metadata }
  else e

/-- `create_edge`: ensure both endpoint nodes exist (bare auto-creation),
then `INSERT` a new edge row; when the `UNIQUE(source, relationship, target)`
constraint fires (`sqlite3.IntegrityError`), `UPDATE` confidence, timestamp
and metadata of the existing row instead and return `none` (the Python
`return None` of the update path). -/
def GraphDB.create_edge (db : GraphDB) (source relationship target : String)
    (confidence : ℚ) (metadata : Option Meta) (now : Nat) :
    Option Nat × GraphDB :=
  let db1 := (db.create_node source none now).2
  let db2 := (db1.create_node target none now).2
  if db2.edges.any (fun e => e.hasTriple source relationship target) then
    (none,
      { db2 with
          edges := db2.edges.map
            (updateMatching source relationship target confidence metadata now) })
  else
    (some db2.nextEdgeId,
      { db2 with
          edges := db2.edges ++
            [⟨db2.nextEdgeId, source, relationship, target, confidence, now,
              metaEncode metadata⟩],
          nextEdgeId := db2.nextEdgeId + 1 })

/-- `if source:` — a query filter participates only when it is truthy,
i.e. present and a non-empty string. -/
def filterTruthy : Option String → Bool
  | none => false
  | some s => !s.isEmpty

/-- One `AND column = ?` clause of `query_edges`: a row passes when the
filter is falsy (no clause added) or the column equals the filter value. -/
def filterPasses (f : Option String) (column : String) : Bool :=
  if filterTruthy f then column == f.getD "" else true

/-- `query_edges`: `SELECT * FROM edges WHERE 1=1` plus one exact-match
clause per truthy filter; no ORDER BY, so rows come back in rowid
(insertion) order. -/
def GraphDB.query_edges (db : GraphDB)
    (source relationship target : Option String) : List EdgeRow :=
  db.edges.filter (fun e =>
    filterPasses source e.source &&
    filterPasses relationship e.relationship &&
    filterPasses target e.target)

/-- `all_nodes`: `SELECT id FROM nodes ORDER BY ts DESC`. -/
def GraphDB.all_nodes (db : GraphDB) : List String :=
  (db.nodes.mergeSort (fun a b => b.ts ≤ a.ts)).map (fun r => r.id)

/-- `all_edges`: `SELECT * FROM edges ORDER BY ts DESC`. -/
def GraphDB.all_edges (db : GraphDB) : List EdgeRow :=
  db.edges.mergeSort (fun a b => b.ts ≤ a.ts)

/-- One entry of the `nodes` mapping of an exported snapshot. -/
structure ExportedNode where
  created : Nat
  metadata : Meta
deriving DecidableEq, Repr

/-- One element of the `edges` sequence of an exported snapshot. -/
structure ExportedEdge where
  source : String
  relationship : String
  target : String
  confidence : ℚ
  ts : Nat
  metadata : Meta
deriving DecidableEq, Repr

/-- The document built by `export_as_json`: node id → entry (as an
association list in `all_nodes` order), edge records, export timestamp. -/
structure Snapshot where
  nodes : List (String × ExportedNode)
  edges : List ExportedEdge
  exported : Nat
deriving DecidableEq, Repr

/-- `export_as_json`: for each id of `all_nodes` re-fetch the row
(`SELECT * FROM nodes WHERE id = ?`, first hit) and decode its metadata;
list every edge of `all_edges` with decoded metadata; stamp the export. -/
def GraphDB.export_as_json (db : GraphDB) (now : Nat) : Snapshot :=
  { nodes := db.all_nodes.filterMap (fun node_id =>
      (db.nodes.find? (fun r => r.id == node_id)).map (fun row =>
        (node_id, ⟨row.ts, metaDecode row.metadata⟩))),
    edges := db.all_edges.map (fun e =>
      ⟨e.source, e.relationship, e.target, e.confidence, e.ts,
        metaDecode e.metadata⟩),
    exported := now }

/-- Round a rational to the nearest integer, ties to the even neighbour —
the rounding used by Python's builtin `round`.  `q.num.fdiv q.den` is the
floor of `q` (floor division by the positive denominator). -/
def roundHalfEven (q : ℚ) : ℤ :=
  let f := q.num.fdiv q.den
  if q - f < 1 / 2 then f
  else if q - f > 1 / 2 then f + 1
  else if f % 2 = 0 then f else f + 1

/-- Python `round(x, 2)`: round to two decimal places, ties to even. -/
def round2 (q : ℚ) : ℚ := (roundHalfEven (100 * q) : ℚ) / 100

/-- The record returned by `stats`. -/
structure Stats where
  num_nodes : Nat
  num_edges : Nat
  avg_confidence : ℚ
deriving DecidableEq, Repr

/-- `stats`: `COUNT(*)` of each table, and `AVG(confidence)` over the edges
(`NULL or 0` when there are none) rounded to two decimal places. -/
def GraphDB.stats (db : GraphDB) : Stats :=
  { num_nodes := db.nodes.length,
    num_edges := db.edges.length,
    avg_confidence :=
      round2 (if db.edges.isEmpty then 0
        else (db.edges.map (fun e => e.confidence)).sum / db.edges.length) }

/-- One record of the decision journal (`memory_decisions.jsonl`); the
field set written by `LearningTracker.log_decision`. -/
structure JournalEntry where
  ts : Nat
  type : String
  subject : String
  reasoning : String
  action : String
  result : Meta
  tags : List String
deriving DecidableEq, Repr

/-- `log_decision`: append exactly one record to the journal file, with
`result or {}` and `tags or []` defaulting the optional arguments (an empty
dict / list is falsy in Python and also defaults to itself). -/
def log_decision (journal : List JournalEntry) (decision_type subject reasoning action : String)
    (result : Option Meta) (tags : Option (List String)) (now : Nat) :
    List JournalEntry :=
  journal ++ [⟨now, decision_type, subject, reasoning, action,
    (result.getD []), (tags.getD [])⟩]

/-- The arguments of one `log_decision` call, with its clock reading. -/
structure LogCall where
  decision_type : String
  subject : String
  reasoning : String
  action : String
  result : Option Meta
  tags : Option (List String)
  now : Nat
deriving DecidableEq, Repr

/-- The record that `log_decision` writes for one call. -/
def LogCall.entry (c : LogCall) : JournalEntry :=
  ⟨c.now, c.decision_type, c.subject, c.reasoning, c.action,
    (c.result.getD []), (c.tags.getD [])⟩

/-- Run a sequence of `log_decision` calls against a journal file. -/
def runCalls (journal : List JournalEntry) : List LogCall → List JournalEntry
  | [] => journal
  | c :: cs =>
      runCalls
        (log_decision journal c.decision_type c.subject c.reasoning c.action
          c.result c.tags c.now) cs

/-! ## The fixed 78-card deck (`src/tarot_deck.py`) -/

/-- Major Arcana (0-21). -/
def MAJOR_ARCANA : List String :=
  ["The Fool", "The Magician", "The High Priestess", "The Empress",
   "The Emperor", "The Hierophant", "The Lovers", "The Chariot", "Strength",
   "The Hermit", "Wheel of Fortune", "Justice", "The Hanged Man", "Death",
   "Temperance", "The Devil", "The Tower", "The Star", "The Moon", "The Sun",
   "Judgement", "The World"]

/-- Minor Arcana — Wands. -/
def WANDS : List String :=
  ["Ace of Wands", "Two of Wands", "Three of Wands", "Four of Wands",
   "Five of Wands", "Six of Wands", "Seven of Wands", "Eight of Wands",
   "Nine of Wands", "Ten of Wands", "Page of Wands", "Knight of Wands",
   "Queen of Wands", "King of Wands"]

/-- Minor Arcana — Cups. -/
def CUPS : List String :=
  ["Ace of Cups", "Two of Cups", "Three of Cups", "Four of Cups",
   "Five of Cups", "Six of Cups", "Seven of Cups", "Eight of Cups",
   "Nine of Cups", "Ten of Cups", "Page of Cups", "Knight of Cups",
   "Queen of Cups", "King of Cups"]

/-- Minor Arcana — Swords. -/
def SWORDS : List String :=
  ["Ace of Swords", "Two of Swords", "Three of Swords", "Four of Swords",
   "Five of Swords", "Six of Swords", "Seven of Swords", "Eight of Swords",
   "Nine of Swords", "Ten of Swords", "Page of Swords", "Knight of Swords",
   "Queen of Swords", "King of Swords"]

/-- Minor Arcana — Pentacles. -/
def PENTACLES : List String :=
  ["Ace of Pentacles", "Two of Pentacles", "Three of Pentacles",
   "Four of Pentacles", "Five of Pentacles", "Six of Pentacles",
   "Seven of Pentacles", "Eight of Pentacles", "Nine of Pentacles",
   "Ten of Pentacles", "Page of Pentacles", "Knight of Pentacles",
   "Queen of Pentacles", "King of Pentacles"]

/-- `FULL_DECK = MAJOR_ARCANA + WANDS + CUPS + SWORDS + PENTACLES`. -/
def FULL_DECK : List String := MAJOR_ARCANA ++ WANDS ++ CUPS ++ SWORDS ++ PENTACLES

/-! ## SHA-256 (`hashlib.sha256`), over byte lists, words as `Nat` mod 2^32 -/

/-- Truncate to an unsigned 32-bit value. -/
def u32 (x : Nat) : Nat := x % 4294967296

/-- 32-bit rotate right (argument already < 2^32). -/
def rotr32 (n x : Nat) : Nat := (x >>> n) ||| (u32 (x <<< (32 - n)))

/-- The 64 SHA-256 round constants of FIPS 180-4 (fractional parts of the
cube roots of the first 64 primes), written in decimal. -/
def sha256K : List Nat :=
  [1116352408, 1899447441, 3049323471, 3921009573,
   961987163, 1508970993, 2453635748, 2870763221,
   3624381080, 310598401, 607225278, 1426881987,
   1925078388, 2162078206, 2614888103, 3248222580,
   3835390401, 4022224774, 264347078, 604807628,
   770255983, 1249150122, 1555081692, 1996064986,
   2554220882, 2821834349, 2952996808, 3210313671,
   3336571891, 3584528711, 113926993, 338241895,
   666307205, 773529912, 1294757372, 1396182291,
   1695183700, 1986661051, 2177026350, 2456956037,
   2730485921, 2820302411, 3259730800, 3345764771,
   3516065817, 3600352804, 4094571909, 275423344,
   430227734, 506948616, 659060556, 883997877,
   958139571, 1322822218, 1537002063, 1747873779,
   1955562222, 2024104815, 2227730452, 2361852424,
   2428436474, 2756734187, 3204031479, 3329325298]

/-- The SHA-256 initial hash value of FIPS 180-4 (fractional parts of the
square roots of the first 8 primes), written in decimal. -/
def sha256H0 : List Nat :=
  [1779033703, 3144134277, 1013904242, 2773480762,
   1359893119, 2600822924, 528734635, 1541459225]

/-- A natural number as 8 big-endian bytes. -/
def be8 (n : Nat) : List Nat :=
  (List.range 8).map (fun i => (n >>> (8 * (7 - i))) % 256)

/-- SHA-256 padding: `0x80`, zeros to 56 mod 64, then the bit length as 8
big-endian bytes. -/
def sha256Pad (msg : List Nat) : List Nat :=
  msg ++ [128] ++ List.replicate ((119 - msg.length % 64) % 64) 0 ++
    be8 (8 * msg.length)

/-- Pack big-endian 4-byte groups into 32-bit words. -/
def bytesToWords : List Nat → List Nat
  | b0 :: b1 :: b2 :: b3 :: rest =>
      (b0 <<< 24 ||| b1 <<< 16 ||| b2 <<< 8 ||| b3) :: bytesToWords rest
  | _ => []

/-- Split a byte list into 64-byte blocks (the fuel bounds the number of
blocks; `bytes.length` is always enough). -/
def sha256BlocksAux : Nat → List Nat → List (List Nat)
  | 0, _ => []
  | fuel + 1, bytes =>
      if bytes.length < 64 then []
      else bytes.take 64 :: sha256BlocksAux fuel (bytes.drop 64)

/-- Split a byte list into 64-byte blocks. -/
def sha256Blocks (bytes : List Nat) : List (List Nat) :=
  sha256BlocksAux bytes.length bytes

/-- Message-schedule extension: grow the 16 block words to 64. -/
def sha256Extend (w : List Nat) (i : Nat) : List Nat :=
  match i with
  | 0 => w
  | i + 1 =>
      let w := sha256Extend w i
      let x15 := w.getD (w.length - 15) 0
      let x2 := w.getD (w.length - 2) 0
      let s0 := rotr32 7 x15 ^^^ rotr32 18 x15 ^^^ (x15 >>> 3)
      let s1 := rotr32 17 x2 ^^^ rotr32 19 x2 ^^^ (x2 >>> 10)
      w ++ [u32 (w.getD (w.length - 16) 0 + s0 + w.getD (w.length - 7) 0 + s1)]

/-- One SHA-256 compression round. -/
def sha256Round (st : Nat × Nat × Nat × Nat × Nat × Nat × Nat × Nat)
    (kw : Nat × Nat) : Nat × Nat × Nat × Nat × Nat × Nat × Nat × Nat :=
  let (a, b, c, d, e, f, g, h) := st
  let S1 := rotr32 6 e ^^^ rotr32 11 e ^^^ rotr32 25 e
  let ch := (e &&& f) ^^^ ((e ^^^ 4294967295) &&& g)
  let T1 := u32 (h + S1 + ch + kw.1 + kw.2)
  let S0 := rotr32 2 a ^^^ rotr32 13 a ^^^ rotr32 22 a
  let maj := (a &&& b) ^^^ (a &&& c) ^^^ (b &&& c)
  let T2 := u32 (S0 + maj)
  (u32 (T1 + T2), a, b, c, u32 (d + T1), e, f, g)

/-- Compress one 64-byte block into the running hash state. -/
def sha256Compress (hs : List Nat) (block : List Nat) : List Nat :=
  let w := sha256Extend (bytesToWords block) 48
  let init : Nat × Nat × Nat × Nat × Nat × Nat × Nat × Nat :=
    (hs.getD 0 0, hs.getD 1 0, hs.getD 2 0, hs.getD 3 0,
     hs.getD 4 0, hs.getD 5 0, hs.getD 6 0, hs.getD 7 0)
  let (a, b, c, d, e, f, g, h) := (sha256K.zip w).foldl sha256Round init
  [u32 (hs.getD 0 0 + a), u32 (hs.getD 1 0 + b), u32 (hs.getD 2 0 + c),
   u32 (hs.getD 3 0 + d), u32 (hs.getD 4 0 + e), u32 (hs.getD 5 0 + f),
   u32 (hs.getD 6 0 + g), u32 (hs.getD 7 0 + h)]

/-- The SHA-256 digest of a byte list, as 8 big-endian 32-bit words. -/
def sha256Words (msg : List Nat) : List Nat :=
  (sha256Blocks (sha256Pad msg)).foldl sha256Compress sha256H0

/-- UTF-8 encoding of one character (Python `str.encode()`). -/
def charUtf8 (c : Char) : List Nat :=
  let n := c.toNat
  if n < 128 then [n]
  else if n < 2048 then [192 + n / 64, 128 + n % 64]
  else if n < 65536 then [224 + n / 4096, 128 + n / 64 % 64, 128 + n % 64]
  else [240 + n / 262144, 128 + n / 4096 % 64, 128 + n / 64 % 64, 128 + n % 64]

/-- UTF-8 encoding of a string (Python `str.encode()`). -/
def utf8Encode (s : String) : List Nat := s.data.flatMap charUtf8

/-! ## CPython's Mersenne Twister (`random.seed` / `random.sample`)

The generator state is the 624-word MT19937 array plus the output index.
The array is represented as a single natural number, word `i` occupying
bits `[32 * i, 32 * i + 32)` (`wordGet` / `wordSet` below), so that array
reads and in-place writes are constant-depth arithmetic; the loops
themselves mirror the reference `init_genrand` / `init_by_array` /
`genrand_uint32` code word for word.  `_randbelow`'s rejection loop is
given explicit fuel (each round rejects with probability < 1/2, so the
fallback after 64 rounds is unreachable in practice); on exhaustion it
returns 0, which keeps the result below the bound. -/

/-- Word `i` of a packed 32-bit word array. -/
def wordGet (a i : Nat) : Nat := (a >>> (32 * i)) % 4294967296

/-- Overwrite word `i` of a packed 32-bit word array with `v` (< 2^32). -/
def wordSet (a i v : Nat) : Nat :=
  a - (wordGet a i <<< (32 * i)) + (v <<< (32 * i))

/-- Identity in continuation-passing style that pattern-matches its `Nat`
argument, so that the kernel evaluates the accumulated array state at every
loop iteration instead of building a reduction chain whose depth grows with
the iteration count. -/
def withForced (n : Nat) (f : Nat → α) : α :=
  match n with
  | 0 => f 0
  | m + 1 => f (m + 1)

/-- MT19937 state: the 624-word array (packed) and the next output index. -/
structure MTState where
  mt : Nat
  mti : Nat
deriving Repr

/-- `init_genrand`'s recurrence
`mt[i] = 1812433253 * (mt[i-1] ^ (mt[i-1] >> 30)) + i`, filling words
`i, i+1, ...` of the packed array accumulated in `acc`. -/
def initGenrandAux (prev i acc : Nat) : Nat → Nat
  | 0 => acc
  | count + 1 =>
      let v := u32 (1812433253 * (prev ^^^ (prev >>> 30)) + i)
      withForced (acc + (v <<< (32 * i))) (fun acc =>
        initGenrandAux v (i + 1) acc count)

/-- `init_genrand(s)`: fill the 624-word array from a single 32-bit seed. -/
def init_genrand (s : Nat) : Nat :=
  initGenrandAux (u32 s) 1 (u32 s) 623

/-- First mixing loop of `init_by_array` (multiplier 1664525, key folded in),
with the `i`/`j` wrap-arounds of the reference code; returns the array and
the final `i`. -/
def ibaLoop1 : Nat → Nat → Nat → Nat → List Nat → Nat × Nat
  | 0, mt, i, _, _ => (mt, i)
  | k + 1, mt, i, j, key =>
      let prev := wordGet mt (i - 1)
      let v := u32 ((wordGet mt i ^^^ u32 ((prev ^^^ (prev >>> 30)) * 1664525))
        + key.getD j 0 + j)
      withForced (wordSet mt i v) (fun mt =>
        let j := if j + 1 ≥ key.length then 0 else j + 1
        if i + 1 ≥ 624 then ibaLoop1 k (wordSet mt 0 (wordGet mt 623)) 1 j key
        else ibaLoop1 k mt (i + 1) j key)

/-- Second mixing loop of `init_by_array` (multiplier 1566083941, `- i`
in 32-bit arithmetic). -/
def ibaLoop2 : Nat → Nat → Nat → Nat
  | 0, mt, _ => mt
  | k + 1, mt, i =>
      let prev := wordGet mt (i - 1)
      let v := u32 ((wordGet mt i ^^^ u32 ((prev ^^^ (prev >>> 30)) * 1566083941))
        + 4294967296 - i % 4294967296)
      withForced (wordSet mt i v) (fun mt =>
        if i + 1 ≥ 624 then ibaLoop2 k (wordSet mt 0 (wordGet mt 623)) 1
        else ibaLoop2 k mt (i + 1))

/-- `init_by_array(key)`: seed from a word array, then force mt[0] = 0x80000000. -/
def init_by_array (key : List Nat) : Nat :=
  let (mt1, i1) := ibaLoop1 (max 624 key.length) (init_genrand 19650218) 1 0 key
  wordSet (ibaLoop2 623 mt1 i1) 0 2147483648

/-- `random.seed(n)` for an integer seed below 2^32: CPython splits `n`
into 32-bit words (here a single word) and calls `init_by_array`; the
fresh state has its output index at 624 so the first draw twists. -/
def seedMT (n : Nat) : MTState := ⟨init_by_array [u32 n], 624⟩

/-- One step of the MT19937 twist, updating word `kk` in place. -/
def twistStep (mt kk : Nat) : Nat :=
  let y := (wordGet mt kk &&& 2147483648) ||| (wordGet mt ((kk + 1) % 624) &&& 2147483647)
  wordSet mt kk
    (wordGet mt ((kk + 397) % 624) ^^^ (y >>> 1) ^^^
      (if y % 2 = 1 then 2567483615 else 0))

/-- The in-place twist loop over all 624 words. -/
def twistLoop : Nat → Nat → Nat → Nat
  | 0, mt, _ => mt
  | k + 1, mt, kk => withForced (twistStep mt kk) (fun mt => twistLoop k mt (kk + 1))

/-- Regenerate the whole MT19937 array (`genrand_uint32`'s block step). -/
def twist (mt : Nat) : Nat := twistLoop 624 mt 0

/-- MT19937 output tempering. -/
def temper (y : Nat) : Nat :=
  let y := y ^^^ (y >>> 11)
  let y := y ^^^ ((y <<< 7) &&& 2636928640)
  let y := y ^^^ ((y <<< 15) &&& 4022730752)
  y ^^^ (y >>> 18)

/-- `genrand_uint32`: twist when the array is exhausted, then output the
tempered next word. -/
def genrand32 (st : MTState) : Nat × MTState :=
  if st.mti ≥ 624 then
    let mt := twist st.mt
    (temper (wordGet mt 0), ⟨mt, 1⟩)
  else
    (temper (wordGet st.mt st.mti), ⟨st.mt, st.mti + 1⟩)

/-- `getrandbits(k)` for `k ≤ 32`: the top `k` bits of one output word. -/
def getrandbits (st : MTState) (k : Nat) : Nat × MTState :=
  let (r, st) := genrand32 st
  (r >>> (32 - k), st)

/-- Floor base-2 logarithm by structural recursion (the fuel dominates the
recursion depth; `n` itself is always enough). -/
def log2Aux : Nat → Nat → Nat
  | 0, _ => 0
  | fuel + 1, n => if n ≥ 2 then log2Aux fuel (n / 2) + 1 else 0

/-- Python `int.bit_length()`. -/
def bitLen (n : Nat) : Nat := if n = 0 then 0 else log2Aux n n + 1

/-- The rejection loop of `_randbelow_with_getrandbits`, with fuel. -/
def randbelowLoop : Nat → Nat → Nat → MTState → Nat × MTState
  | 0, _, _, st => (0, st)
  | fuel + 1, n, k, st =>
      let (r, st) := getrandbits st k
      if r < n then (r, st) else randbelowLoop fuel n k st

/-- `_randbelow(n)`: 0 when `n = 0`, otherwise draw `bit_length(n)`-bit
values until one is below `n`. -/
def randbelow (st : MTState) (n : Nat) : Nat × MTState :=
  if n = 0 then (0, st) else randbelowLoop 64 n (bitLen n) st

/-- The pool loop of `random.sample` (taken for a 78-element population and
`k = 10`, since `n ≤ setsize = 85`): repeatedly pick index
`j = _randbelow(len(active pool))`, emit `pool[j]`, move the last active
element into slot `j` and shrink the active region by one.  The Python
array keeps stale entries past the active region that are never read again;
the embedding keeps just the active region, so the swap is `set` followed
by `dropLast`. -/
def sampleAux : Nat → List String → MTState → List String × MTState
  | 0, _, st => ([], st)
  | k + 1, pool, st =>
      let (j, st) := randbelow st pool.length
      let x := pool.getD j ""
      let (rest, st') := sampleAux k ((pool.set j (pool.getLast?.getD "")).dropLast) st
      (x :: rest, st')

/-- `random.sample(population, k)` on the current generator state — the
drawn list, which is all the Python caller sees (the advanced generator
state stays inside the global `random` module). -/
def sample (population : List String) (k : Nat) (st : MTState) :
    List String := (sampleAux k population st).1

/-- `TarotSpreadSeeder._hash_path`: the first 8 hex characters of the
SHA-256 digest of the (absolute) path string, read as an integer — i.e. the
first big-endian word of the digest.  The argument is the already-absolute
path string `str(self.instance_path.absolute())`. -/
def hash_path (path : String) : Nat := (sha256Words (utf8Encode path)).getD 0 0

/-- `TarotSpreadSeeder.draw_spread`: `random.seed(self.seed_value)` then
`random.sample(self.deck, 10)`, the deck being `FULL_DECK`. -/
def draw_spread (path : String) : List String :=
  sample FULL_DECK 10 (seedMT (hash_path path))

/-!
Theorems.

Everything below is proved about the embedded operations above.
-/

/-- The database invariant guaranteed by the
`UNIQUE(source, relationship, target)` constraint: at most one edge row per
identity triple. -/
def Wf (db : GraphDB) : Prop :=
  ∀ s r t : String, db.edges.countP (fun e => e.hasTriple s r t) ≤ 1

theorem Wf.empty : Wf GraphDB.empty := by
  intro s r t
  simp [GraphDB.empty]

/-- `create_node` never touches the edges table. -/
theorem create_node_edges (db : GraphDB) (node_id : String)
    (metadata : Option Meta) (now : Nat) :
    ((db.create_node node_id metadata now).2).edges = db.edges := by
  unfold GraphDB.create_node
  split <;> rfl

/-- `create_node` never touches the AUTOINCREMENT counter. -/
theorem create_node_nextEdgeId (db : GraphDB) (node_id : String)
    (metadata : Option Meta) (now : Nat) :
    ((db.create_node node_id metadata now).2).nextEdgeId = db.nextEdgeId := by
  unfold GraphDB.create_node
  split <;> rfl

/-- `create_node` returns its argument id. -/
theorem create_node_fst (db : GraphDB) (node_id : String)
    (metadata : Option Meta) (now : Nat) :
    (db.create_node node_id metadata now).1 = node_id := by
  unfold GraphDB.create_node
  split <;> rfl

/-- After `create_node node_id`, a node with that id exists. -/
theorem node_exists_create_node_self (db : GraphDB) (node_id : String)
    (metadata : Option Meta) (now : Nat) :
    ((db.create_node node_id metadata now).2).node_exists node_id = true := by
  unfold GraphDB.create_node
  split
  · assumption
  · simp [GraphDB.node_exists]

/-- `create_node` preserves existence of any node. -/
theorem node_exists_mono (db : GraphDB) (node_id other : String)
    (metadata : Option Meta) (now : Nat)
    (h : db.node_exists other = true) :
    ((db.create_node node_id metadata now).2).node_exists other = true := by
  unfold GraphDB.create_node
  split
  · exact h
  · simpa [GraphDB.node_exists] using Or.inl (by simpa [GraphDB.node_exists] using h)

/-- The nodes table only ever grows by appended bare rows under
`create_node _ none`. -/
theorem create_node_bare_nodes (db : GraphDB) (node_id : String) (now : Nat) :
    ∃ new, ((db.create_node node_id none now).2).nodes = db.nodes ++ new ∧
      ∀ nr ∈ new, nr.metadata = none ∧ nr.created_by = "system" := by
  unfold GraphDB.create_node
  split
  · exact ⟨[], by simp⟩
  · exact ⟨[⟨node_id, now, "system", metaEncode none⟩], rfl, by simp [metaEncode]⟩

/-- C2. Node creation idempotence: `create_node` on an existing id is a
no-op on the state — two consecutive calls with any metadata and clock
readings leave exactly the state of the first call (same `created_at`,
same metadata), no error is raised, and the id is returned. -/
theorem create_node_idempotent (db : GraphDB) (node_id : String)
    (m₁ m₂ : Option Meta) (t₁ t₂ : Nat) :
    ((db.create_node node_id m₁ t₁).2.create_node node_id m₂ t₂) =
      (node_id, (db.create_node node_id m₁ t₁).2) := by
  have hex := node_exists_create_node_self db node_id m₁ t₁
  unfold GraphDB.create_node
  simp only [GraphDB.create_node] at hex
  split at hex <;> simp_all [GraphDB.create_node]

/-- The effect of `create_edge` on the edges table, by branch: either the
`UPDATE` of the existing row or the `INSERT` of a fresh one. -/
theorem create_edge_edges (db : GraphDB) (s r t : String) (c : ℚ)
    (m : Option Meta) (now : Nat) :
    ((db.create_edge s r t c m now).2).edges =
      if db.edges.any (fun e => e.hasTriple s r t) then
        db.edges.map (updateMatching s r t c m now)
      else
        db.edges ++ [⟨((db.create_node s none now).2.create_node t none now).2.nextEdgeId,
          s, r, t, c, now, metaEncode m⟩] := by
  unfold GraphDB.create_edge
  simp only [create_node_edges]
  split <;> rfl

/-- The nodes table after `create_edge`: the old rows followed by the
auto-created bare endpoints (if any). -/
theorem create_edge_nodes_bare (db : GraphDB) (s r t : String) (c : ℚ)
    (m : Option Meta) (now : Nat) :
    ∃ new, ((db.create_edge s r t c m now).2).nodes = db.nodes ++ new ∧
      ∀ nr ∈ new, nr.metadata = none ∧ nr.created_by = "system" := by
  obtain ⟨n₁, h₁, hb₁⟩ := create_node_bare_nodes db s now
  obtain ⟨n₂, h₂, hb₂⟩ := create_node_bare_nodes (db.create_node s none now).2 t now
  refine ⟨n₁ ++ n₂, ?_, ?_⟩
  · unfold GraphDB.create_edge
    dsimp only
    split <;> simp [h₂, h₁]
  · intro nr hnr
    rcases List.mem_append.1 hnr with h | h
    · exact hb₁ nr h
    · exact hb₂ nr h

/-- `create_edge` leaves the set of node ids of previously existing nodes
intact and makes both endpoints exist. -/
theorem create_edge_node_exists (db : GraphDB) (s r t : String) (c : ℚ)
    (m : Option Meta) (now : Nat) :
    ((db.create_edge s r t c m now).2).node_exists s = true ∧
      ((db.create_edge s r t c m now).2).node_exists t = true := by
  have hs := node_exists_create_node_self db s none now
  have hs' := node_exists_mono (db.create_node s none now).2 t s none now hs
  have ht := node_exists_create_node_self (db.create_node s none now).2 t none now
  unfold GraphDB.create_edge
  dsimp only
  constructor <;> split <;>
    first
      | simpa [GraphDB.node_exists] using hs'
      | simpa [GraphDB.node_exists] using ht

/-- C3. Referential auto-creation: after `create_edge`, both endpoint nodes
exist; the nodes table is the old table plus (possibly) freshly appended
bare rows — no metadata, system-created — so nodes that already existed are
left untouched. -/
theorem create_edge_auto_creates (db : GraphDB) (s r t : String) (c : ℚ)
    (m : Option Meta) (now : Nat) :
    ((db.create_edge s r t c m now).2).node_exists s = true ∧
      ((db.create_edge s r t c m now).2).node_exists t = true ∧
      ∃ new, ((db.create_edge s r t c m now).2).nodes = db.nodes ++ new ∧
        ∀ nr ∈ new, nr.metadata = none := by
  obtain ⟨h₁, h₂⟩ := create_edge_node_exists db s r t c m now
  obtain ⟨new, hn, hb⟩ := create_edge_nodes_bare db s r t c m now
  exact ⟨h₁, h₂, new, hn, fun nr h => (hb nr h).1⟩

/-- C9 (implicit). An empty-string filter is falsy in Python, so
`query_edges` with an empty-string filter (in any position, even all three)
ignores it and returns every stored edge. -/
theorem query_edges_empty_string_filter (db : GraphDB) :
    db.query_edges (some "") none none = db.edges ∧
      db.query_edges none (some "") none = db.edges ∧
      db.query_edges none none (some "") = db.edges ∧
      db.query_edges (some "") (some "") (some "") = db.edges := by
  have h : ("" : String).isEmpty = true := rfl
  refine ⟨?_, ?_, ?_, ?_⟩ <;>
    simp [GraphDB.query_edges, filterPasses, filterTruthy, h]

/-- The `UPDATE` of `create_edge` never changes a row's identity triple. -/
theorem hasTriple_updateMatching (s r t s' r' t' : String) (c : ℚ)
    (m : Option Meta) (now : Nat) (e : EdgeRow) :
    (updateMatching s r t c m now e).hasTriple s' r' t' = e.hasTriple s' r' t' := by
  unfold updateMatching
  split <;> simp [EdgeRow.hasTriple]

/-- Counting rows with a given triple is invariant under the `UPDATE` map. -/
theorem countP_map_updateMatching (l : List EdgeRow) (s r t s' r' t' : String)
    (c : ℚ) (m : Option Meta) (now : Nat) :
    (l.map (updateMatching s r t c m now)).countP (fun e => e.hasTriple s' r' t')
      = l.countP (fun e => e.hasTriple s' r' t') := by
  rw [List.countP_map]
  exact List.countP_congr (fun a _ => by
    simp [Function.comp, hasTriple_updateMatching])

/-- Filtering by the updated triple commutes with the `UPDATE` map: the
matching rows are exactly the old matching rows with the new confidence,
timestamp and metadata. -/
theorem filter_triple_map_updateMatching (l : List EdgeRow) (s r t : String)
    (c : ℚ) (m : Option Meta) (now : Nat) :
    (l.map (updateMatching s r t c m now)).filter (fun e => e.hasTriple s r t)
      = (l.filter (fun e => e.hasTriple s r t)).map (fun e =>
          { e with confidence := c, ts := now, metadata := metaEncode m }) := by
  induction l with
  | nil => rfl
  | cons a l ih =>
    by_cases h : a.hasTriple s r t = true
    · have hu : updateMatching s r t c m now a =
          { a with confidence := c, ts := now, metadata := metaEncode m } := by
        unfold updateMatching
        rw [if_pos h]
      simp only [List.map_cons, List.filter_cons, hasTriple_updateMatching, h, ih, hu]
      simp [EdgeRow.hasTriple] at h ⊢
      simp [h]
    · have hu : updateMatching s r t c m now a = a := by
        unfold updateMatching
        rw [if_neg h]
      simp only [List.map_cons, List.filter_cons, hasTriple_updateMatching, h, ih, hu]
      simp [h]

/-- After any `create_edge s r t`, exactly one row carries the triple
`(s, r, t)` (given the uniqueness invariant held before). -/
theorem create_edge_count_one (db : GraphDB) (s r t : String) (c : ℚ)
    (m : Option Meta) (now : Nat) (hWf : Wf db) :
    ((db.create_edge s r t c m now).2).edges.countP
      (fun e => e.hasTriple s r t) = 1 := by
  rw [create_edge_edges]
  split
  · rename_i h
    have h1 : 0 < db.edges.countP (fun e => e.hasTriple s r t) := by
      rw [List.countP_pos]
      simpa [List.any_eq_true] using h
    have h2 := hWf s r t
    rw [countP_map_updateMatching]
    omega
  · rename_i h
    have h0 : db.edges.countP (fun e => e.hasTriple s r t) = 0 := by
      rw [List.countP_eq_zero]
      intro a ha
      simp [List.any_eq_true] at h
      simpa using h a ha
    rw [List.countP_append, h0]
    simp [List.countP_cons, EdgeRow.hasTriple]

/-- `create_edge` preserves the uniqueness invariant (this is the SQLite
`UNIQUE` constraint at work). -/
theorem create_edge_wf (db : GraphDB) (s r t : String) (c : ℚ)
    (m : Option Meta) (now : Nat) (hWf : Wf db) :
    Wf (db.create_edge s r t c m now).2 := by
  intro s' r' t'
  rw [create_edge_edges]
  split
  · rw [countP_map_updateMatching]
    exact hWf s' r' t'
  · rename_i h
    rw [List.countP_append]
    by_cases hnew : (EdgeRow.hasTriple ⟨((db.create_node s none now).2.create_node t none now).2.nextEdgeId,
        s, r, t, c, now, metaEncode m⟩ s' r' t') = true
    · obtain ⟨⟨hs, hr⟩, ht⟩ : (s = s' ∧ r = r') ∧ t = t' := by
        simpa [EdgeRow.hasTriple] using hnew
      subst hs; subst hr; subst ht
      have h0 : db.edges.countP (fun e => e.hasTriple s r t) = 0 := by
        rw [List.countP_eq_zero]
        intro a ha
        simp [List.any_eq_true] at h
        simpa using h a ha
      simp [h0, List.countP_cons, hnew]
    · simp [List.countP_cons, hnew]
      exact hWf s' r' t'

/-- When the triple already exists, `create_edge` takes the update path and
returns `None`. -/
theorem create_edge_fst_update (db : GraphDB) (s r t : String) (c : ℚ)
    (m : Option Meta) (now : Nat)
    (h : db.edges.any (fun e => e.hasTriple s r t) = true) :
    (db.create_edge s r t c m now).1 = none := by
  unfold GraphDB.create_edge
  dsimp only
  rw [create_node_edges, create_node_edges, if_pos h]

/-- C1. Edge upsert: two consecutive `create_edge` calls on the same triple
leave exactly one stored edge for that triple, carrying the second call's
confidence, metadata (fully replaced, encoded by `metaEncode`) and
timestamp; the duplicate insert surfaces as the update path (`None`
returned), never as an error; and the uniqueness invariant keeps holding
after both calls. -/
theorem edge_upsert_second_wins (db : GraphDB) (s r t : String)
    (c₁ c₂ : ℚ) (m₁ m₂ : Option Meta) (t₁ t₂ : Nat) (hWf : Wf db) :
    ∃ e : EdgeRow,
      (((db.create_edge s r t c₁ m₁ t₁).2.create_edge s r t c₂ m₂ t₂).2.edges.filter
          (fun e => e.hasTriple s r t)) = [e] ∧
      e.confidence = c₂ ∧ e.metadata = metaEncode m₂ ∧ e.ts = t₂ ∧
      ((db.create_edge s r t c₁ m₁ t₁).2.create_edge s r t c₂ m₂ t₂).1 = none ∧
      Wf (db.create_edge s r t c₁ m₁ t₁).2 ∧
      Wf ((db.create_edge s r t c₁ m₁ t₁).2.create_edge s r t c₂ m₂ t₂).2 := by
  set db₁ := (db.create_edge s r t c₁ m₁ t₁).2 with hdb₁
  have hWf₁ : Wf db₁ := create_edge_wf db s r t c₁ m₁ t₁ hWf
  have hcount₁ : db₁.edges.countP (fun e => e.hasTriple s r t) = 1 :=
    create_edge_count_one db s r t c₁ m₁ t₁ hWf
  have hany₁ : db₁.edges.any (fun e => e.hasTriple s r t) = true := by
    rw [List.any_eq_true]
    have : 0 < db₁.edges.countP (fun e => e.hasTriple s r t) := by omega
    simpa using List.countP_pos.1 this
  have hedges₂ : ((db₁.create_edge s r t c₂ m₂ t₂).2).edges =
      db₁.edges.map (updateMatching s r t c₂ m₂ t₂) := by
    rw [create_edge_edges, if_pos hany₁]
  have hfilter₁ : ∃ e₁, db₁.edges.filter (fun e => e.hasTriple s r t) = [e₁] := by
    rw [← List.length_eq_one, ← List.countP_eq_length_filter]
    exact hcount₁
  obtain ⟨e₁, he₁⟩ := hfilter₁
  refine ⟨{ e₁ with confidence := c₂, ts := t₂, metadata := metaEncode m₂ }, ?_, rfl, rfl, rfl,
    create_edge_fst_update db₁ s r t c₂ m₂ t₂ hany₁, hWf₁,
    create_edge_wf db₁ s r t c₂ m₂ t₂ hWf₁⟩
  rw [hedges₂, filter_triple_map_updateMatching, he₁]
  rfl

/-- C1 witness: the upsert theorem applied to a concrete pair of calls on
the empty database. -/
theorem edge_upsert_second_wins_witness :
    ∃ e : EdgeRow,
      (((GraphDB.empty.create_edge "a" "knows" "b" (1/4) none 0).2.create_edge
          "a" "knows" "b" (3/4) (some [("why", "said so")]) 1).2.edges.filter
          (fun e => e.hasTriple "a" "knows" "b")) = [e] ∧
      e.confidence = 3/4 ∧ e.metadata = metaEncode (some [("why", "said so")]) ∧
      e.ts = 1 ∧
      ((GraphDB.empty.create_edge "a" "knows" "b" (1/4) none 0).2.create_edge
        "a" "knows" "b" (3/4) (some [("why", "said so")]) 1).1 = none ∧
      Wf (GraphDB.empty.create_edge "a" "knows" "b" (1/4) none 0).2 ∧
      Wf ((GraphDB.empty.create_edge "a" "knows" "b" (1/4) none 0).2.create_edge
        "a" "knows" "b" (3/4) (some [("why", "said so")]) 1).2 :=
  edge_upsert_second_wins GraphDB.empty "a" "knows" "b" (1/4) (3/4) none
    (some [("why", "said so")]) 0 1 (fun s r t => by simp [GraphDB.empty])

/-- The result set that claim C4 describes, following the spec's words:
every supplied (non-null) filter — including an empty string — narrows the
result by exact equality on the corresponding field.  This definition is
modelled from the spec for comparison against the implementation's
`query_edges`. -/
def specQueryEdges (db : GraphDB)
    (source relationship target : Option String) : List EdgeRow :=
  db.edges.filter (fun e =>
    (match source with | none => true | some s => e.source == s) &&
    (match relationship with | none => true | some s => e.relationship == s) &&
    (match target with | none => true | some s => e.target == s))

/-- A one-edge database used as a concrete example. -/
def exampleDB : GraphDB := (GraphDB.empty.create_edge "a" "r" "b" (1/2) none 0).2

/-- The example database satisfies the uniqueness invariant. -/
theorem exampleDB_wf : Wf exampleDB := by
  intro s r t
  have h := List.countP_le_length (l := exampleDB.edges) (fun e => e.hasTriple s r t)
  have hlen : exampleDB.edges.length = 1 := by rfl
  omega

/-- C4 counterexample: on a database holding the single edge
`("a", "r", "b")`, querying with the supplied (non-null) filter
`source = ""` does not return the edges whose source equals `""` (none do);
it ignores the falsy filter and returns the edge, refuting the claim for
empty-string filter values. -/
theorem query_edges_empty_filter_counterexample :
    exampleDB.query_edges (some "") none none ≠
      specQueryEdges exampleDB (some "") none none := by decide

/-- The empty string is the falsy string. -/
theorem string_isEmpty_empty : ("" : String).isEmpty = true := rfl

/-- A non-empty string is truthy. -/
theorem string_isEmpty_false {s : String} (h : s ≠ "") : s.isEmpty = false :=
  Bool.eq_false_iff.mpr (fun hb => h ((String.isEmpty_iff _).1 hb))

/-- A query-filter clause passes exactly the rows demanded by the amended
claim: a supplied filter narrows by equality only when non-empty. -/
theorem filterPasses_iff (f : Option String) (col : String) :
    filterPasses f col = true ↔ ∀ s, f = some s → s ≠ "" → col = s := by
  cases f with
  | none => simp [filterPasses, filterTruthy]
  | some s =>
    by_cases hs : s = ""
    · subst hs
      simp [filterPasses, filterTruthy, string_isEmpty_empty]
    · simp [filterPasses, filterTruthy, hs, string_isEmpty_false hs]

/-- C4 (amended). Query filter correctness for non-empty filters: an edge
is returned iff it is stored and matches every supplied non-empty filter
exactly; with no (truthy) filter every edge is returned; with all three
filters supplied and non-empty, at most one edge is returned. -/
theorem query_edges_filter_correct (db : GraphDB) (hWf : Wf db)
    (src rel tgt : Option String) :
    (∀ e, e ∈ db.query_edges src rel tgt ↔ e ∈ db.edges ∧
        (∀ s, src = some s → s ≠ "" → e.source = s) ∧
        (∀ s, rel = some s → s ≠ "" → e.relationship = s) ∧
        (∀ s, tgt = some s → s ≠ "" → e.target = s)) ∧
    db.query_edges none none none = db.edges ∧
    (∀ s r t : String, s ≠ "" → r ≠ "" → t ≠ "" →
      (db.query_edges (some s) (some r) (some t)).length ≤ 1) := by
  refine ⟨?_, ?_, ?_⟩
  · intro e
    unfold GraphDB.query_edges
    rw [List.mem_filter]
    simp only [Bool.and_eq_true, filterPasses_iff]
    tauto
  · unfold GraphDB.query_edges
    simp [filterPasses, filterTruthy]
  · intro s r t hs hr ht
    unfold GraphDB.query_edges
    have hp : ∀ e : EdgeRow, (filterPasses (some s) e.source &&
        filterPasses (some r) e.relationship && filterPasses (some t) e.target)
        = e.hasTriple s r t := by
      intro e
      simp [filterPasses, filterTruthy, EdgeRow.hasTriple,
        string_isEmpty_false hs, string_isEmpty_false hr, string_isEmpty_false ht]
    rw [List.filter_congr (fun e _ => hp e), ← List.countP_eq_length_filter]
    exact hWf s r t

/-- C4 witness: the amended filter-correctness theorem applied to the
one-edge example database with the filter `source = "a"`. -/
theorem query_edges_filter_correct_witness :
    (∀ e, e ∈ exampleDB.query_edges (some "a") none none ↔ e ∈ exampleDB.edges ∧
        (∀ s, (some "a" : Option String) = some s → s ≠ "" → e.source = s) ∧
        (∀ s, (none : Option String) = some s → s ≠ "" → e.relationship = s) ∧
        (∀ s, (none : Option String) = some s → s ≠ "" → e.target = s)) ∧
    exampleDB.query_edges none none none = exampleDB.edges ∧
    (∀ s r t : String, s ≠ "" → r ≠ "" → t ≠ "" →
      (exampleDB.query_edges (some s) (some r) (some t)).length ≤ 1) :=
  query_edges_filter_correct exampleDB exampleDB_wf (some "a") none none

/-- The two-edge database of the spec's stats example: confidences 0.2
and 0.8. -/
def twoEdgeDB : GraphDB :=
  ((GraphDB.empty.create_edge "a" "r1" "b" (2/10) none 0).2.create_edge
    "a" "r2" "b" (8/10) none 1).2

/-- The spec's end-to-end scenario: two named nodes and one 0.9-confidence
edge between them. -/
def scenarioDB : GraphDB :=
  (((GraphDB.empty.create_node "awakening" none 0).2.create_node
    "uncertainty" none 1).2.create_edge "awakening" "meets" "uncertainty"
    (9/10) none 2).2

/-- Rounding an integer is the identity. -/
theorem roundHalfEven_intCast (n : ℤ) : roundHalfEven (n : ℚ) = n := by
  unfold roundHalfEven
  simp only [Rat.num_intCast, Rat.den_intCast, Nat.cast_one, Int.fdiv_one]
  norm_num

/-- Evaluate `round2` on a rational whose hundredfold is the integer `n`. -/
theorem round2_eq (q : ℚ) (n : ℤ) (h : 100 * q = (n : ℚ)) :
    round2 q = (n : ℚ) / 100 := by
  unfold round2
  rw [h, roundHalfEven_intCast]

/-- C5. Stats correctness: `stats` reports the node count, the edge count,
and the mean edge confidence rounded to two decimal places (0 with no
edges, avoiding the division by zero); concretely, the empty database
reports average 0, confidences [0.2, 0.8] average to 0.5, and the spec's
scenario reports `{num_nodes := 2, num_edges := 1, avg_confidence := 0.9}`. -/
theorem stats_correct :
    (∀ db : GraphDB, db.stats = ⟨db.nodes.length, db.edges.length,
        round2 (if db.edges.isEmpty then 0
          else (db.edges.map (fun e => e.confidence)).sum / db.edges.length)⟩) ∧
    GraphDB.empty.stats.avg_confidence = 0 ∧
    twoEdgeDB.stats.avg_confidence = 1/2 ∧
    scenarioDB.stats = ⟨2, 1, 9/10⟩ := by
  refine ⟨fun db => rfl, ?_, ?_, ?_⟩
  · rw [show GraphDB.empty.stats.avg_confidence = round2 0 from rfl,
      round2_eq _ 0 (by norm_num)]
    norm_num
  · simp [twoEdgeDB, GraphDB.empty, GraphDB.create_edge, GraphDB.create_node,
      GraphDB.node_exists, EdgeRow.hasTriple, updateMatching, metaEncode,
      GraphDB.stats]
    rw [round2_eq _ 50 (by norm_num)]
    norm_num
  · simp [scenarioDB, GraphDB.empty, GraphDB.create_edge, GraphDB.create_node,
      GraphDB.node_exists, EdgeRow.hasTriple, updateMatching, metaEncode,
      GraphDB.stats, Stats.mk.injEq]
    rw [round2_eq _ 90 (by norm_num)]
    norm_num

/-- Node ids listed by `all_nodes` are exactly the ids of rows of the
nodes table. -/
theorem mem_all_nodes (db : GraphDB) (node_id : String) :
    node_id ∈ db.all_nodes ↔ ∃ row ∈ db.nodes, row.id = node_id := by
  unfold GraphDB.all_nodes
  simp [List.mem_map, List.mem_mergeSort]

/-- Edges listed by `all_edges` are exactly the rows of the edges table. -/
theorem mem_all_edges (db : GraphDB) (e : EdgeRow) :
    e ∈ db.all_edges ↔ e ∈ db.edges := by
  unfold GraphDB.all_edges
  exact List.mem_mergeSort

/-- C6. Export completeness: the snapshot built by `export_as_json` keys
every id of `all_nodes` in its nodes mapping, carrying the creation
timestamp and (decoded) metadata of a stored row with that id; contains,
for every edge of `all_edges`, a record with matching source, relationship,
target, confidence, timestamp and (decoded) metadata; and carries the
export timestamp. -/
theorem export_snapshot_complete (db : GraphDB) (now : Nat) :
    (∀ node_id ∈ db.all_nodes, ∃ row ∈ db.nodes, row.id = node_id ∧
        ((node_id, ⟨row.ts, metaDecode row.metadata⟩) : String × ExportedNode)
          ∈ (db.export_as_json now).nodes) ∧
    (∀ e ∈ db.all_edges,
        (⟨e.source, e.relationship, e.target, e.confidence, e.ts,
          metaDecode e.metadata⟩ : ExportedEdge) ∈ (db.export_as_json now).edges) ∧
    (db.export_as_json now).exported = now := by
  refine ⟨?_, ?_, rfl⟩
  · intro node_id hmem
    obtain ⟨row', hrow', hid'⟩ := (mem_all_nodes db node_id).1 hmem
    have hsome : (db.nodes.find? (fun r => r.id == node_id)).isSome := by
      rw [List.find?_isSome]
      exact ⟨row', hrow', by simp [hid']⟩
    obtain ⟨row₀, hfind⟩ := Option.isSome_iff_exists.1 hsome
    have hrow₀mem : row₀ ∈ db.nodes := List.mem_of_find?_eq_some hfind
    have hrow₀id : row₀.id = node_id := by
      have := List.find?_some hfind
      simpa using this
    refine ⟨row₀, hrow₀mem, hrow₀id, ?_⟩
    unfold GraphDB.export_as_json
    rw [List.mem_filterMap]
    exact ⟨node_id, hmem, by rw [hfind]; rfl⟩
  · intro e hmem
    unfold GraphDB.export_as_json
    exact List.mem_map_of_mem _ hmem

/-- C6 witness: export completeness applied at the concrete scenario
database with export time 3. -/
theorem export_snapshot_complete_witness :
    (∀ node_id ∈ scenarioDB.all_nodes, ∃ row ∈ scenarioDB.nodes, row.id = node_id ∧
        ((node_id, ⟨row.ts, metaDecode row.metadata⟩) : String × ExportedNode)
          ∈ (scenarioDB.export_as_json 3).nodes) ∧
    (∀ e ∈ scenarioDB.all_edges,
        (⟨e.source, e.relationship, e.target, e.confidence, e.ts,
          metaDecode e.metadata⟩ : ExportedEdge)
          ∈ (scenarioDB.export_as_json 3).edges) ∧
    (scenarioDB.export_as_json 3).exported = 3 :=
  export_snapshot_complete scenarioDB 3

/-- C7. Journal append-only correctness: running a sequence of
`log_decision` calls appends exactly one record per call, in call order,
each carrying the call's timestamp, kind, subject, reasoning, action,
result (empty mapping when omitted) and tags (empty sequence when
omitted); against any pre-existing journal the old records survive
unchanged as a prefix, so nothing is ever rewritten or removed. -/
theorem journal_append_only (calls : List LogCall) :
    runCalls [] calls = calls.map LogCall.entry ∧
    (runCalls [] calls).length = calls.length ∧
    ∀ journal, runCalls journal calls = journal ++ calls.map LogCall.entry := by
  have key : ∀ (cs : List LogCall) (j : List JournalEntry),
      runCalls j cs = j ++ cs.map LogCall.entry := by
    intro cs
    induction cs with
    | nil => intro j; simp [runCalls]
    | cons c cs ih =>
        intro j
        have : log_decision j c.decision_type c.subject c.reasoning c.action
            c.result c.tags c.now = j ++ [c.entry] := rfl
        simp [runCalls, this, ih]
  exact ⟨by simpa using key calls [], by simp [key calls []],
    fun j => key calls j⟩

/-- The rejection loop never returns a value ≥ its bound. -/
theorem randbelowLoop_lt (n k : Nat) (h : 0 < n) :
    ∀ (fuel : Nat) (st : MTState), (randbelowLoop fuel n k st).1 < n := by
  intro fuel
  induction fuel with
  | zero => intro st; simpa [randbelowLoop] using h
  | succ fuel ih =>
      intro st
      rw [randbelowLoop]
      rcases hg : getrandbits st k with ⟨r, st'⟩
      dsimp only
      split
      · rename_i hr; exact hr
      · exact ih st'

/-- `_randbelow n` is below `n` whenever `n` is positive. -/
theorem randbelow_lt (st : MTState) (n : Nat) (h : 0 < n) :
    (randbelow st n).1 < n := by
  unfold randbelow
  rw [if_neg (by omega)]
  exact randbelowLoop_lt n (bitLen n) h 64 st

/-- Popping the last element onto the front is a permutation. -/
theorem last_cons_dropLast_perm (l : List String) (h : l ≠ []) :
    List.Perm (l.getLast?.getD "" :: l.dropLast) l := by
  have h1 : l.getLast? = some (l.getLast h) := List.getLast?_eq_getLast l h
  rw [h1, Option.getD_some]
  have h2 : List.Perm (l.getLast h :: l.dropLast) (l.dropLast ++ [l.getLast h]) :=
    (List.perm_append_singleton _ _).symm
  rw [List.dropLast_append_getLast h] at h2
  exact h2

/-- One step of the `random.sample` pool loop is a permutation: the picked
element consed onto the shrunken pool (last active element swapped into the
picked slot) permutes the original pool. -/
theorem pick_swap_perm : ∀ (p : List String) (j : Nat), j < p.length →
    List.Perm (p.getD j "" :: ((p.set j (p.getLast?.getD "")).dropLast)) p := by
  intro p
  induction p with
  | nil => intro j hj; simp at hj
  | cons a p ih =>
      intro j hj
      cases j with
      | zero =>
          cases p with
          | nil => simp
          | cons b p' =>
              have hlast : (a :: b :: p').getLast? = (b :: p').getLast? := by
                simp [List.getLast?_cons_cons]
              have hstep := last_cons_dropLast_perm (b :: p') (by simp)
              simpa [hlast] using List.Perm.cons a hstep
      | succ j =>
          have hj' : j < p.length := by simpa using hj
          have hpne : p ≠ [] := by
            intro hnil
            rw [hnil] at hj'
            simp at hj'
          have hlast : (a :: p).getLast? = p.getLast? := by
            cases p with
            | nil => exact absurd rfl hpne
            | cons c p'' => simp [List.getLast?_cons_cons]
          have hsetne : p.set j (p.getLast?.getD "") ≠ [] := by
            have hlenset : (p.set j (p.getLast?.getD "")).length = p.length :=
              List.length_set p j _
            intro hnil
            rw [hnil] at hlenset
            simp at hlenset
            omega
          rw [List.getD_cons_succ, hlast, List.set_cons_succ,
            List.dropLast_cons_of_ne_nil hsetne]
          have hswap : List.Perm
              (p.getD j "" :: a :: (p.set j (p.getLast?.getD "")).dropLast)
              (a :: p.getD j "" :: (p.set j (p.getLast?.getD "")).dropLast) :=
            List.Perm.swap a (p.getD j "") _
          exact hswap.trans (List.Perm.cons a (ih j hj'))

/-- The pool loop of `random.sample` draws `k` pairwise-compatible
elements: the result is a sub-permutation of the pool, of length `k`. -/
theorem sampleAux_subperm : ∀ (k : Nat) (pool : List String) (st : MTState),
    k ≤ pool.length →
    List.Subperm (sampleAux k pool st).1 pool ∧ (sampleAux k pool st).1.length = k := by
  intro k
  induction k with
  | zero => intro pool st _; simp [sampleAux]
  | succ k ih =>
      intro pool st hk
      have hpos : 0 < pool.length := by omega
      rw [sampleAux]
      rcases hr : randbelow st pool.length with ⟨j, st'⟩
      have hj : j < pool.length := by
        have := randbelow_lt st pool.length hpos
        rw [hr] at this
        exact this
      dsimp only
      have hlen' : ((pool.set j (pool.getLast?.getD "")).dropLast).length
          = pool.length - 1 := by simp
      have hk' : k ≤ ((pool.set j (pool.getLast?.getD "")).dropLast).length := by
        omega
      obtain ⟨hsub, hlen⟩ := ih ((pool.set j (pool.getLast?.getD "")).dropLast) st' hk'
      rcases hs : sampleAux k ((pool.set j (pool.getLast?.getD "")).dropLast) st'
        with ⟨rest, st''⟩
      rw [hs] at hsub hlen
      dsimp only
      constructor
      · have hcons : List.Subperm (pool.getD j "" :: rest)
            (pool.getD j "" :: (pool.set j (pool.getLast?.getD "")).dropLast) :=
          (List.subperm_cons _).2 hsub
        exact hcons.trans (pick_swap_perm pool j hj).subperm
      · simpa using hlen

/-- `random.sample population k` is a `k`-element sub-permutation of the
population whenever `k` does not exceed the population size. -/
theorem sample_subperm (population : List String) (k : Nat) (st : MTState)
    (h : k ≤ population.length) :
    List.Subperm (sample population k st) population ∧
      (sample population k st).length = k :=
  sampleAux_subperm k population st h

/-- A sub-permutation of a duplicate-free list is duplicate-free. -/
theorem subperm_nodup {l₁ l₂ : List String} (h : List.Subperm l₁ l₂)
    (h₂ : l₂.Nodup) : l₁.Nodup := by
  obtain ⟨l, hp, hs⟩ := h
  exact hp.nodup_iff.1 (h₂.sublist hs)

/-- The 78 card names of the deck are pairwise distinct. -/
theorem FULL_DECK_nodup : FULL_DECK.Nodup := by decide

/-- C10 (implicit). For every path, the drawn spread is exactly 10
pairwise-distinct card names, all members of the fixed 78-card deck
(sampling without replacement). -/
theorem draw_spread_ten_distinct_cards (path : String) :
    (draw_spread path).length = 10 ∧ (draw_spread path).Nodup ∧
      ∀ c ∈ draw_spread path, c ∈ FULL_DECK := by
  have hdeck : (10 : Nat) ≤ FULL_DECK.length := by decide
  obtain ⟨hsub, hlen⟩ :=
    sample_subperm FULL_DECK 10 (seedMT (hash_path path)) hdeck
  exact ⟨hlen, subperm_nodup hsub FULL_DECK_nodup, fun c hc => hsub.subset hc⟩

/-- C10 witness: the spread properties at the concrete path `/a`. -/
theorem draw_spread_ten_distinct_cards_witness :
    (draw_spread "/a").length = 10 ∧ (draw_spread "/a").Nodup ∧
      ∀ c ∈ draw_spread "/a", c ∈ FULL_DECK :=
  draw_spread_ten_distinct_cards "/a"

set_option maxRecDepth 100000
set_option maxHeartbeats 64000000

/-- C8. Deterministic seeding: the drawn spread is a pure function of the
path string (equal paths — i.e. repeated runs on the same path — give equal
spreads), and it factors through the 32-bit seed extracted from the SHA-256
hash of the path; two concrete distinct paths (`/a`, `/b`) produce
different 10-card sequences, witnessing that distinct paths separate. -/
theorem draw_spread_deterministic :
    (∀ p₁ p₂ : String, p₁ = p₂ → draw_spread p₁ = draw_spread p₂) ∧
    (∀ p₁ p₂ : String, hash_path p₁ = hash_path p₂ →
      draw_spread p₁ = draw_spread p₂) ∧
    draw_spread "/a" ≠ draw_spread "/b" := by
  refine ⟨fun p₁ p₂ h => by rw [h],
    fun p₁ p₂ h => by unfold draw_spread; rw [h], ?_⟩
  decide

/-- C8 witness: determinism applied at the concrete path `/a`. -/
theorem draw_spread_deterministic_witness :
    draw_spread "/a" = draw_spread "/a" :=
  draw_spread_deterministic.1 "/a" "/a" rfl

end WasteLand
